import Mathlib

/-!
Verification of the packed single-file revision store (bzrlib/revfile.py)
and of the souk smart-server wire protocol (bzrlib/transport/souk.py).

Modelling conventions:
* Byte strings are `List Nat` (each entry one byte value).
* The two on-disk files of a `Revfile` are modelled structurally: the index
  file as the list of its 48-byte records (the fixed header is implicit) and
  the data file as its byte contents.  The byte-level record parser
  `_read_next_index` is modelled separately on raw bytes.
* Fallible Python code returns `Except PyErr`; each `PyErr` constructor
  names the Python exception class that the corresponding `raise` (or
  runtime failure) produces.  An error value carries no state: every claim
  settled here only exercises paths where the source raises before its
  first file write (writes in `_add_raw` happen last, after all checks
  except `struct.pack`, whose range failure no claim reaches).
* External library code that is not part of this repository (the `sha`,
  `zlib` and `mdiff` modules) is abstracted into the parameter structure
  `Libs`; theorems state the library facts they rely on as explicit
  hypotheses, and witnesses instantiate `Libs` with concrete executable
  functions having those properties.
-/

/-- Record size of the index file, bytes (`_RECORDSIZE`). -/
def _RECORDSIZE : Nat := 48

/-- Sentinel index meaning "full text, no base" (`_NO_RECORD = 0xFFFFFFFF`). -/
def _NO_RECORD : Nat := 0xFFFFFFFF

/-- Flag bit: payload is zlib-compressed (`FL_GZIP = 1`). -/
def FL_GZIP : Nat := 1

/-- Maximum number of patches in a row before recording a whole text
(`CHAIN_LIMIT = 2`).  It is used as a Python int recursion limit, hence `Int`. -/
def CHAIN_LIMIT : Int := 2

/-- Python exceptions that the modelled code can raise.  `NameError` arises
when evaluating an expression that references an unbound name; `StructError`
is `struct.error` from packing a value outside the unsigned 32-bit range. -/
inductive PyErr where
  | RevfileError (msg : String)
  | LimitHitException
  | IndexError (msg : String)
  | NameError (name : String)
  | AssertionError
  | StructError
deriving DecidableEq, Repr

deriving instance DecidableEq for Except

/-- One parsed 48-byte index record: the tuple
`(sha, base, flags, offset, len)` produced by `struct.unpack(">20sIIII12x")`. -/
structure IdxRec where
  sha : List Nat
  base : Nat
  flags : Nat
  offset : Nat
  len : Nat
deriving DecidableEq, Repr

/-- The state of a revfile: parsed index records and data-file bytes. -/
structure Revfile where
  recs : List IdxRec
  data : List Nat
deriving DecidableEq, Repr

/-- External (non-repository) library functions used by revfile.py:
`sha.new(t).digest()`, `zlib.compress`, `zlib.decompress`, `mdiff.bdiff`
and `mdiff.bpatch`.  They are abstracted as total functions; properties a
theorem needs (hash injectivity, compression round-trip, delta round-trip)
appear as hypotheses of that theorem. -/
structure Libs where
  sha1 : List Nat → List Nat
  compress : List Nat → List Nat
  decompress : List Nat → List Nat
  bdiff : List Nat → List Nat → List Nat
  bpatch : List Nat → List Nat → List Nat

/-- `Revfile.__len__`: number of revisions.  On a structurally represented
store this is the number of index records (the source derives it from the
index file size, erroring on a size that is not a whole number of records;
such byte-level malformation is handled by `_read_next_index` below). -/
def Revfile.length (rf : Revfile) : Nat := rf.recs.length

/-- Helper for `find_sha`: scan records from position `i` for digest `s`,
returning the position of the first match, else `_NO_RECORD`. -/
def find_sha_from : List IdxRec → Nat → List Nat → Nat
  | [], _, _ => _NO_RECORD
  | r :: rest, i, s => if r.sha = s then i else find_sha_from rest (i + 1) s

/-- `Revfile.find_sha`: linear scan for a record with the given digest. -/
def Revfile.find_sha (rf : Revfile) (s : List Nat) : Nat :=
  find_sha_from rf.recs 0 s

/-- `Revfile._check_index`: `idx < 0 or idx > len(self)` raises
`RevfileError` (indices are natural numbers here, so only the upper test
remains; note the check deliberately admits `idx == len(self)`). -/
def Revfile.check_index (rf : Revfile) (idx : Nat) : Except PyErr Unit :=
  if rf.length < idx then .error (.RevfileError "invalid index") else .ok ()

/-- `Revfile.__getitem__`: `_seek_index(idx)` followed by
`_read_next_index()`.  On a well-formed index file (header plus whole
records, which is all the `Revfile` operations themselves ever produce) the
read returns a whole record, or nothing at all when positioned at or past
the end of file, in which case `IndexError` is raised. -/
def Revfile.getitem (rf : Revfile) (idx : Nat) : Except PyErr IdxRec :=
  match rf.recs.get? idx with
  | some r => .ok r
  | none => .error (.IndexError "end of index file")

/-- `Revfile._get_raw`: fetch and decompress one record's raw payload.
`flags & ~FL_GZIP` is nonzero exactly when some bit above bit 0 is set,
i.e. when `flags / 2 ≠ 0`; `flags & FL_GZIP` is `flags % 2`. -/
def Revfile.get_raw (E : Libs) (rf : Revfile) (idxrec : IdxRec) :
    Except PyErr (List Nat) :=
  if idxrec.flags / 2 ≠ 0 then .error (.RevfileError "unsupported index flags")
  else if idxrec.len = 0 then .ok []
  else
    let d := (rf.data.drop idxrec.offset).take idxrec.len
    if d.length ≠ idxrec.len then
      .error (.RevfileError "short read getting text")
    else if idxrec.flags % 2 = 1 then .ok (E.decompress d)
    else .ok d

/-- The `sub_limit` computation of `Revfile._get_patched`: `None` stays
`None`; an integer limit is decremented and, if it goes negative,
`LimitHitException` is raised. -/
def sub_limit : Option Int → Except PyErr (Option Int)
  | none => .ok none
  | some n => if n - 1 < 0 then .error .LimitHitException else .ok (some (n - 1))

/-- Body shared by `_get_full_text` / `_get_patched` dispatch inside
`Revfile.get`, parametric in the recursive call `getf` used to fetch the
base text.  Mirrors the source order: assertion `base < idx`, then the
recursion-limit check, then the recursive `get`, then `_get_raw`, then
`mdiff.bpatch`. -/
def Revfile.recon_with (getf : Nat → Option Int → Except PyErr (List Nat))
    (E : Libs) (rf : Revfile) (idx : Nat) (idxrec : IdxRec)
    (rlimit : Option Int) : Except PyErr (List Nat) :=
  if idxrec.base = _NO_RECORD then rf.get_raw E idxrec
  else if idxrec.base < idx then
    match sub_limit rlimit with
    | .error e => .error e
    | .ok sub =>
      match getf idxrec.base sub with
      | .error e => .error e
      | .ok base_text =>
        match rf.get_raw E idxrec with
        | .error e => .error e
        | .ok patch => .ok (E.bpatch base_text patch)
  else .error .AssertionError

/-- Fuelled form of `Revfile.get`.  The source recursion always descends to
a strictly smaller index (it asserts `base < idx` first), so fuel `idx + 1`
is always sufficient and the fuel-exhaustion branch is unreachable from
`Revfile.get`. -/
def Revfile.getFuel (E : Libs) (rf : Revfile) :
    Nat → Nat → Option Int → Except PyErr (List Nat)
  | 0, _, _ => .error .AssertionError
  | fuel + 1, idx, rlimit =>
    match rf.getitem idx with
    | .error e => .error e
    | .ok idxrec =>
      match rf.recon_with (rf.getFuel E fuel) E idx idxrec rlimit with
      | .error e => .error e
      | .ok text =>
        if E.sha1 text = idxrec.sha then .ok text
        else .error (.RevfileError "corrupt SHA-1 digest on record")

/-- `Revfile.get`: retrieve text of a previous revision, re-verifying the
stored SHA-1 of the reconstructed text. -/
def Revfile.get (E : Libs) (rf : Revfile) (idx : Nat) (rlimit : Option Int) :
    Except PyErr (List Nat) :=
  rf.getFuel E (idx + 1) idx rlimit

/-- The reconstruction step of `Revfile.get` for record `idxrec` at `idx`:
everything `get` computes before the hash re-verification. -/
def Revfile.reconstruct (E : Libs) (rf : Revfile) (idx : Nat)
    (idxrec : IdxRec) (rlimit : Option Int) : Except PyErr (List Nat) :=
  rf.recon_with (rf.getFuel E idx) E idx idxrec rlimit

/-- `Revfile._add_raw`: append the payload to the data file and one packed
record to the index file.  `struct.pack(">IIII12x", ...)` requires each
field to fit in an unsigned 32-bit word, else `struct.error`.  (In the
source the data-file write precedes the pack, so a pack failure would leave
a dangling payload; no claim reaches that corner and the error value here
carries no state.) -/
def Revfile.add_raw (rf : Revfile) (text_sha : List Nat) (data : List Nat)
    (base : Nat) (flags : Nat) : Except PyErr (Nat × Revfile) :=
  if base < 2 ^ 32 ∧ flags < 2 ^ 32 ∧ rf.data.length < 2 ^ 32 ∧
      data.length < 2 ^ 32 then
    .ok (rf.length,
      ⟨rf.recs ++ [⟨text_sha, base, flags, rf.data.length, data.length⟩],
       rf.data ++ data⟩)
  else .error .StructError

/-- `Revfile._add_compressed`: compress the payload only when requested,
longer than 50 bytes, and actually shrunk by compression. -/
def Revfile.add_compressed (E : Libs) (rf : Revfile) (text_sha : List Nat)
    (data : List Nat) (base : Nat) (compress : Bool) :
    Except PyErr (Nat × Revfile) :=
  if compress ∧ 50 < data.length ∧ (E.compress data).length < data.length then
    rf.add_raw text_sha (E.compress data) base FL_GZIP
  else
    rf.add_raw text_sha data base 0

/-- `Revfile._add_full_text`: store a full text, not relative to any base. -/
def Revfile.add_full_text (E : Libs) (rf : Revfile) (text : List Nat)
    (text_sha : List Nat) (compress : Bool) : Except PyErr (Nat × Revfile) :=
  rf.add_compressed E text_sha text _NO_RECORD compress

/-- `Revfile._add_delta`: store a text relative to a previous text, falling
back to a full text when the base's delta chain is already at the limit or
when the delta is not smaller than the text. -/
def Revfile.add_delta (E : Libs) (rf : Revfile) (text : List Nat)
    (text_sha : List Nat) (base : Nat) (compress : Bool) :
    Except PyErr (Nat × Revfile) :=
  match rf.check_index base with
  | .error e => .error e
  | .ok _ =>
    match rf.get E base (some CHAIN_LIMIT) with
    | .error e =>
      if e = .LimitHitException then rf.add_full_text E text text_sha compress
      else .error e
    | .ok base_text =>
      if text.length ≤ (E.bdiff base_text text).length then
        rf.add_full_text E text text_sha compress
      else rf.add_compressed E text_sha (E.bdiff base_text text) base compress

/-- `Revfile.add`: add a new text, deduplicating by content hash (the
digest `sha.new(text).digest()` and the scan result are each written out
twice rather than let-bound, with no change of meaning). -/
def Revfile.add (E : Libs) (rf : Revfile) (text : List Nat) (base : Nat)
    (compress : Bool) : Except PyErr (Nat × Revfile) :=
  if rf.find_sha (E.sha1 text) ≠ _NO_RECORD then
    .ok (rf.find_sha (E.sha1 text), rf)
  else if base = _NO_RECORD then rf.add_full_text E text (E.sha1 text) compress
  else rf.add_delta E text (E.sha1 text) base compress

/-- A well-formed store: every stored index can be read back successfully
by an ordinary reader (no recursion limit). -/
def WellFormed (E : Libs) (rf : Revfile) : Prop :=
  ∀ i, i < rf.length → ∃ t, rf.get E i none = .ok t

/-- Big-endian value of a list of bytes (`struct.unpack(">I")` on 4 bytes). -/
def beVal : List Nat → Nat
  | [] => 0
  | b :: rest => b * 256 ^ rest.length + beVal rest

/-- Field split of `struct.unpack(">20sIIII12x", rec)` on a full 48-byte
record. -/
def unpack_index_record (rec : List Nat) : IdxRec :=
  { sha := rec.take 20
    base := beVal ((rec.drop 20).take 4)
    flags := beVal ((rec.drop 24).take 4)
    offset := beVal ((rec.drop 28).take 4)
    len := beVal ((rec.drop 32).take 4) }

/-- `Revfile._read_next_index`, byte level: `rec` is whatever
`idxfile.read(_RECORDSIZE)` returned (at most 48 bytes).  An empty read
raises `IndexError`.  A short non-empty read executes
`raise RevfileError("short read of %d bytes getting index %d from %r" %
(len(rec), idx, self.basename))`, but the name `idx` is bound neither in
`_read_next_index` nor in any enclosing scope, so evaluating the format
arguments raises `NameError` before the `RevfileError` is constructed. -/
def _read_next_index (rec : List Nat) : Except PyErr IdxRec :=
  if rec = [] then .error (.IndexError "end of index file")
  else if rec.length ≠ _RECORDSIZE then .error (.NameError "idx")
  else .ok (unpack_index_record rec)

/-! ## Souk wire protocol (bzrlib/transport/souk.py)

Streams are byte lists.  Tuple fields are represented by their UTF-8 byte
sequences (Python's `encode('utf-8')` / `decode('utf-8')` compose to the
identity on the round trips considered here, so the codec below works
directly on encoded fields). -/

/-- The field separator byte, Ctrl-A (`'\1'`). -/
def SEP : Nat := 1

/-- The newline byte (`'\n'`). -/
def NL : Nat := 10

/-- ASCII bytes of the protocol word "get". -/
def bGet : List Nat := [103, 101, 116]

/-- ASCII bytes of the protocol word "hello". -/
def bHello : List Nat := [104, 101, 108, 108, 111]

/-- ASCII bytes of the protocol word "has". -/
def bHas : List Nat := [104, 97, 115]

/-- ASCII bytes of the protocol word "ok". -/
def bOk : List Nat := [111, 107]

/-- ASCII bytes of the protocol word "yes". -/
def bYes : List Nat := [121, 101, 115]

/-- ASCII bytes of the protocol word "no". -/
def bNo : List Nat := [110, 111]

/-- ASCII bytes of the protocol word "enoent". -/
def bEnoent : List Nat := [101, 110, 111, 101, 110, 116]

/-- ASCII bytes of the protocol word "done". -/
def bDone : List Nat := [100, 111, 110, 101]

/-- ASCII bytes of the protocol word "error". -/
def bError : List Nat := [101, 114, 114, 111, 114]

/-- ASCII bytes of the protocol phrase "bzr server". -/
def bBzrServer : List Nat := [98, 122, 114, 32, 115, 101, 114, 118, 101, 114]

/-- ASCII bytes of the protocol word "1". -/
def bOne : List Nat := [49]

/-- `'\1'.join(fields)`: concatenate fields with a single separator byte. -/
def joinSep : List (List Nat) → List Nat
  | [] => []
  | [f] => f
  | f :: rest => f ++ SEP :: joinSep rest

/-- `_send_tuple(to_file, args)`: the bytes written, i.e. the joined fields
followed by a newline (the flush writes nothing). -/
def _send_tuple (args : List (List Nat)) : List Nat :=
  joinSep args ++ [NL]

/-- `from_file.readline()`: split a stream into the first line (up to and
including the first newline, or everything when no newline remains) and the
rest of the stream. -/
def readline : List Nat → List Nat × List Nat
  | [] => ([], [])
  | b :: rest =>
    if b = NL then ([b], rest)
    else (b :: (readline rest).1, (readline rest).2)

/-- Python `str.split('\1')`: always returns at least one (possibly empty)
field; a non-separator byte is prepended to the first field of the split of
the remainder. -/
def splitSep : List Nat → List (List Nat)
  | [] => [[]]
  | b :: rest =>
    if b = SEP then [] :: splitSep rest
    else (b :: (splitSep rest).headI) :: (splitSep rest).tail

/-- Result of `_recv_tuple`: end of stream (`None` in the source), a raised
`BzrProtocolError`, or a decoded tuple of fields. -/
inductive RecvResult where
  | eof
  | err (msg : String)
  | tup (fields : List (List Nat))
deriving DecidableEq, Repr

/-- `_recv_tuple(from_file)`: read one line; empty read means end of
stream; a line not terminated by a newline is a protocol error; otherwise
strip the newline and split on the separator.  Also returns the unread rest
of the stream. -/
def _recv_tuple (stream : List Nat) : RecvResult × List Nat :=
  if (readline stream).1 = [] then (.eof, (readline stream).2)
  else if (readline stream).1.getLast? ≠ some NL then
    (.err "request not terminated", (readline stream).2)
  else (.tup (splitSep (readline stream).1.dropLast), (readline stream).2)

/-- ASCII decimal digits of a number, as bytes (`'%d' % n` for `n ≥ 0`). -/
def decimalBytes (n : Nat) : List Nat :=
  (Nat.toDigits 10 n).map Char.toNat

/-- `SoukStreamServer._send_bulk_data(body)`: the bytes written, namely
`'%d\n' % len(body)`, then the raw body, then `'done\n'`. -/
def _send_bulk_data (body : List Nat) : List Nat :=
  decimalBytes body.length ++ [NL] ++ body ++ bDone ++ [NL]

/-- Outcome of serving one request: the client closed the connection
(`_serve_one_request` returns `False`); a `BzrProtocolError` raised by
`_recv_tuple` propagated out (the `serve` loop reports it and re-raises,
killing the connection); or a reply was written, with `keepOpen = true`
when `_serve_one_request` returns `None` (connection stays open) and
`false` when it disconnects after an error reply. -/
inductive ReqOutcome where
  | eof
  | protoFail (msg : String)
  | reply (out : List Nat) (keepOpen : Bool)
deriving DecidableEq, Repr

/-- `SoukStreamServer._dispatch_command` together with the exception
handling of `_serve_one_request`.  The backing transport is abstracted as a
partial map from paths to file contents: `has` is definedness, `get`
returns the contents or raises `NoSuchFile` (answered with an `enoent`
tuple, connection kept open).  Any other exception — unknown command
(`BzrProtocolError`), wrong argument count (`TypeError`), an empty request
tuple (`IndexError` on `req_args[0]`) — is answered by
`_send_error_and_disconnect`, i.e. an `('error', str(e))` tuple followed by
closing the connection; the `str(e)` message text is not modelled and
appears as an empty field. -/
def dispatch_reply (backing : List Nat → Option (List Nat))
    (fields : List (List Nat)) : ReqOutcome :=
  match fields with
  | [] => .reply (_send_tuple [bError, []]) false
  | cmd :: args =>
    if cmd = bHello then .reply (_send_tuple [bBzrServer, bOne]) true
    else if cmd = bHas then
      match args with
      | [p] =>
        .reply (_send_tuple [if (backing p).isSome then bYes else bNo]) true
      | _ => .reply (_send_tuple [bError, []]) false
    else if cmd = bGet then
      match args with
      | [p] =>
        match backing p with
        | some body => .reply (_send_tuple [bOk] ++ _send_bulk_data body) true
        | none => .reply (_send_tuple [bEnoent, p]) true
      | _ => .reply (_send_tuple [bError, []]) false
    else .reply (_send_tuple [bError, []]) false

/-- Mapping from the result of `_recv_tuple` to the outcome of
`_serve_one_request`: `None` (client closed) returns `False`; an exception
raised by `_recv_tuple` propagates; a tuple is dispatched. -/
def serve_reply (backing : List Nat → Option (List Nat)) :
    RecvResult → ReqOutcome
  | .eof => .eof
  | .err m => .protoFail m
  | .tup fields => dispatch_reply backing fields

/-- `SoukStreamServer._serve_one_request`: decode one request tuple from
the stream and dispatch it.  Returns the outcome and the unread rest of the
input stream. -/
def serve_one_request (backing : List Nat → Option (List Nat))
    (stream : List Nat) : ReqOutcome × List Nat :=
  (serve_reply backing (_recv_tuple stream).1, (_recv_tuple stream).2)

/-! ## Concrete instances used by witnesses -/

/-- A concrete, executable instantiation of the external libraries: the
identity digest (injective), a compressor that prepends one byte (so it is
never empty and never shrinks its input, and dropping that byte inverts
it), and a delta codec whose patch is the target prefixed by one byte. -/
def L0 : Libs where
  sha1 := fun t => t
  compress := fun d => 0 :: d
  decompress := fun d => d.tail
  bdiff := fun _ t => 0 :: t
  bpatch := fun _ p => p.tail

/-- A second instantiation whose compressor genuinely shrinks long inputs
(keeps the first three bytes); used to exercise the compressed branch. -/
def L1 : Libs where
  sha1 := fun t => t
  compress := fun d => d.take 3
  decompress := fun d => d
  bdiff := fun _ t => t
  bpatch := fun _ p => p

/-- A store holding a three-hop delta chain: record 3 is based on 2, which
is based on 1, which is based on 0 (a full text).  Reconstructing record 3
with the write-time recursion limit of 2 hits the limit. -/
def rfChain : Revfile :=
  ⟨[⟨[0], _NO_RECORD, 0, 0, 0⟩, ⟨[1], 0, 0, 0, 0⟩,
    ⟨[2], 1, 0, 0, 0⟩, ⟨[3], 2, 0, 0, 0⟩], []⟩

/-- A store holding one full-text record with content `[5]` and a matching
stored digest (under the identity digest of `L0`). -/
def rfOne : Revfile := ⟨[⟨[5], _NO_RECORD, 0, 0, 1⟩], [5]⟩

/-- A corrupted store: the single record's payload reconstructs to `[5]`
but the stored digest says `[99]`. -/
def rfBad : Revfile := ⟨[⟨[99], _NO_RECORD, 0, 0, 1⟩], [5]⟩

/-- ASCII bytes of the path "foo". -/
def bFoo : List Nat := [102, 111, 111]

/-- ASCII bytes of the 11-byte file content "hello world". -/
def bHelloWorld : List Nat :=
  [104, 101, 108, 108, 111, 32, 119, 111, 114, 108, 100]

/-- A concrete backing transport holding exactly one file, "foo", with the
11-byte content "hello world". -/
def backingW : List Nat → Option (List Nat) :=
  fun p => if p = bFoo then some bHelloWorld else none

/-! ## Helper lemmas about the revision store -/

theorem find_sha_from_found {l : List IdxRec} {i : Nat} {s : List Nat}
    (h : find_sha_from l i s ≠ _NO_RECORD) :
    ∃ k r, l.get? k = some r ∧ r.sha = s ∧ find_sha_from l i s = i + k := by
  induction l generalizing i with
  | nil => simp [find_sha_from] at h
  | cons r0 rest ih =>
    by_cases hr : r0.sha = s
    · exact ⟨0, r0, rfl, hr, by simp [find_sha_from, hr]⟩
    · have h' : find_sha_from rest (i + 1) s ≠ _NO_RECORD := by
        simpa [find_sha_from, hr] using h
      obtain ⟨k, r, hk, hs, he⟩ := ih h'
      refine ⟨k + 1, r, by simpa using hk, hs, ?_⟩
      simp only [find_sha_from, if_neg hr, he]
      omega

theorem find_sha_from_none {l : List IdxRec} {i : Nat} {s : List Nat}
    (hcap : i + l.length ≤ _NO_RECORD)
    (h : find_sha_from l i s = _NO_RECORD) :
    ∀ r ∈ l, r.sha ≠ s := by
  induction l generalizing i with
  | nil => simp
  | cons r0 rest ih =>
    intro r hr
    by_cases h0 : r0.sha = s
    · exfalso
      rw [show find_sha_from (r0 :: rest) i s = i by
        simp [find_sha_from, h0]] at h
      simp only [List.length_cons] at hcap
      omega
    · rcases List.mem_cons.mp hr with rfl | hr'
      · exact h0
      · refine @ih (i + 1) ?_ ?_ r hr'
        · simp only [List.length_cons] at hcap; omega
        · simpa [find_sha_from, h0] using h

theorem find_sha_from_append {l : List IdxRec} {i : Nat} {s : List Nat}
    (r0 : IdxRec) (h : ∀ r ∈ l, r.sha ≠ s) :
    find_sha_from (l ++ [r0]) i s =
      if r0.sha = s then i + l.length else _NO_RECORD := by
  induction l generalizing i with
  | nil => simp [find_sha_from]
  | cons r1 rest ih =>
    have h1 : r1.sha ≠ s := h r1 (List.mem_cons_self r1 rest)
    rw [List.cons_append]
    simp only [find_sha_from, if_neg h1]
    rw [ih (fun r hr => h r (List.mem_cons_of_mem _ hr))]
    split
    · simp only [List.length_cons]; omega
    · rfl

theorem add_raw_ok {rf : Revfile} {sh d : List Nat} {b f i : Nat}
    {rf' : Revfile} (h : rf.add_raw sh d b f = .ok (i, rf')) :
    i = rf.recs.length ∧
    rf'.recs = rf.recs ++ [⟨sh, b, f, rf.data.length, d.length⟩] ∧
    rf'.data = rf.data ++ d := by
  rw [Revfile.add_raw] at h
  split at h
  · simp only [Except.ok.injEq, Prod.mk.injEq] at h
    obtain ⟨hi, hrf⟩ := h
    subst hrf
    exact ⟨hi.symm, rfl, rfl⟩
  · cases h

theorem add_compressed_ok {E : Libs} {rf : Revfile} {sh d : List Nat}
    {b : Nat} {c : Bool} {i : Nat} {rf' : Revfile}
    (h : rf.add_compressed E sh d b c = .ok (i, rf')) :
    i = rf.recs.length ∧
    rf'.recs = rf.recs ++
      [⟨sh, b,
        if c ∧ 50 < d.length ∧ (E.compress d).length < d.length
        then FL_GZIP else 0,
        rf.data.length,
        (if c ∧ 50 < d.length ∧ (E.compress d).length < d.length
         then E.compress d else d).length⟩] ∧
    rf'.data = rf.data ++
      (if c ∧ 50 < d.length ∧ (E.compress d).length < d.length
       then E.compress d else d) := by
  rw [Revfile.add_compressed] at h
  split at h
  case isTrue hc =>
    simpa [if_pos hc] using add_raw_ok h
  case isFalse hc =>
    simpa [if_neg hc] using add_raw_ok h

theorem add_compressed_no_limit {E : Libs} {rf : Revfile} {sh d : List Nat}
    {b : Nat} {c : Bool} :
    rf.add_compressed E sh d b c ≠ .error .LimitHitException := by
  rw [Revfile.add_compressed]
  split <;> (rw [Revfile.add_raw]; split <;> simp)

theorem add_fresh_ok {E : Libs} {rf : Revfile} {text : List Nat} {b : Nat}
    {c : Bool} {i : Nat} {rf' : Revfile}
    (hfresh : rf.find_sha (E.sha1 text) = _NO_RECORD)
    (h : rf.add E text b c = .ok (i, rf')) :
    ∃ r : IdxRec, r.sha = E.sha1 text ∧ rf'.recs = rf.recs ++ [r] ∧
      i = rf.recs.length := by
  rw [Revfile.add, if_neg (by simp [hfresh])] at h
  have hfull : ∀ {cc : Bool},
      rf.add_full_text E text (E.sha1 text) cc = .ok (i, rf') →
      ∃ r : IdxRec, r.sha = E.sha1 text ∧ rf'.recs = rf.recs ++ [r] ∧
        i = rf.recs.length := by
    intro cc hh
    rw [Revfile.add_full_text] at hh
    obtain ⟨hi, hrecs, -⟩ := add_compressed_ok hh
    exact ⟨_, rfl, hrecs, hi⟩
  split at h
  · exact hfull h
  · rw [Revfile.add_delta] at h
    split at h
    · cases h
    · split at h
      · split at h
        · exact hfull h
        · cases h
      · split at h
        · exact hfull h
        · obtain ⟨hi, hrecs, -⟩ := add_compressed_ok h
          exact ⟨_, rfl, hrecs, hi⟩

theorem add_no_limit_escape (E : Libs) (rf : Revfile) (t : List Nat)
    (b : Nat) (c : Bool) : rf.add E t b c ≠ .error .LimitHitException := by
  rw [Revfile.add]
  split
  · simp
  · split
    · rw [Revfile.add_full_text]; exact add_compressed_no_limit
    · rw [Revfile.add_delta]
      split
      case h_1 e heq =>
        rw [Revfile.check_index] at heq
        split at heq
        · simp only [Except.error.injEq] at heq
          subst heq
          simp
        · cases heq
      case h_2 =>
        split
        case h_1 e heq =>
          split
          case isTrue => rw [Revfile.add_full_text]; exact add_compressed_no_limit
          case isFalse hne =>
            intro hh
            exact hne (by injection hh)
        case h_2 =>
          split
          · rw [Revfile.add_full_text]; exact add_compressed_no_limit
          · exact add_compressed_no_limit

theorem get_ok_sha {E : Libs} {rf : Revfile} {idx : Nat} {rl : Option Int}
    {t : List Nat} (h : rf.get E idx rl = .ok t) :
    ∃ r, rf.getitem idx = .ok r ∧ E.sha1 t = r.sha := by
  rw [Revfile.get, Revfile.getFuel] at h
  split at h
  · cases h
  case h_2 r heq =>
    split at h
    · cases h
    case h_2 text hrec =>
      split at h
      case isTrue hsha =>
        simp only [Except.ok.injEq] at h
        subst h
        exact ⟨r, heq, hsha⟩
      case isFalse => cases h

/-! ## Claims -/

/-- Claim C2: adding the same text twice is idempotent — the second
`store.add(T)` (with any base/compress arguments) returns the same index as
the first and leaves the store, in particular the data file length,
unchanged.  `hcap` is the format's capacity invariant: the store holds
fewer than `0xFFFFFFFF` records, the index values representable beside the
sentinel. -/
theorem claim_C2_dedup_idempotent {E : Libs} {rf : Revfile} {text : List Nat}
    {b : Nat} {c : Bool} {b' : Nat} {c' : Bool} {i : Nat} {rf' : Revfile}
    (hcap : rf.length < _NO_RECORD)
    (h : rf.add E text b c = .ok (i, rf')) :
    rf'.add E text b' c' = .ok (i, rf') := by
  by_cases hf : rf.find_sha (E.sha1 text) ≠ _NO_RECORD
  · rw [Revfile.add, if_pos hf] at h
    simp only [Except.ok.injEq, Prod.mk.injEq] at h
    obtain ⟨hi, hrf⟩ := h
    subst hrf
    rw [Revfile.add, if_pos hf, hi]
  · push_neg at hf
    obtain ⟨r, hsha, hrecs, hi⟩ := add_fresh_ok hf h
    have hnone : ∀ x ∈ rf.recs, x.sha ≠ E.sha1 text := by
      refine find_sha_from_none ?_ hf
      simp only [Revfile.length] at hcap
      omega
    have hfind : rf'.find_sha (E.sha1 text) = rf.recs.length := by
      rw [Revfile.find_sha, hrecs, find_sha_from_append r hnone, if_pos hsha]
      omega
    have hne : rf'.find_sha (E.sha1 text) ≠ _NO_RECORD := by
      rw [hfind]
      simp only [Revfile.length] at hcap
      omega
    rw [Revfile.add, if_pos hne, hfind, hi]

/-- Witness for C2: on the store produced by a first `add` of `[7]` to the
empty store, a second `add` of `[7]` returns the same index 0 and the same
store. -/
theorem claim_C2_witness :
    Revfile.add L0 ⟨[⟨[7], _NO_RECORD, 0, 0, 1⟩], [7]⟩ [7] _NO_RECORD true =
      .ok (0, ⟨[⟨[7], _NO_RECORD, 0, 0, 1⟩], [7]⟩) :=
  @claim_C2_dedup_idempotent L0 ⟨[], []⟩ [7] _NO_RECORD true _NO_RECORD true
    0 ⟨[⟨[7], _NO_RECORD, 0, 0, 1⟩], [7]⟩ (by decide) (by decide)

/-- Claim C3, counterexample: the claim quantifies over every index
`idx ≥ count`, but at `idx = 0xFFFFFFFF` — the no-base sentinel, which is
`≥` any revision count — `add` of a fresh text succeeds (as a full text)
instead of failing: on the empty store it returns index 0 and appends a
record. -/
theorem claim_C3_counterexample :
    (Revfile.mk [] []).length ≤ 0xFFFFFFFF ∧
    (Revfile.mk [] []).find_sha (L0.sha1 [7]) = _NO_RECORD ∧
    Revfile.add L0 ⟨[], []⟩ [7] 0xFFFFFFFF true =
      .ok (0, ⟨[⟨[7], _NO_RECORD, 0, 0, 1⟩], [7]⟩) := by
  decide

/-- Claim C3 as amended: for every index `idx ≥ count` other than the
no-base sentinel `0xFFFFFFFF`, `add` of a text not already present fails —
with `RevfileError` from `_check_index` when `idx > count`, and with
`IndexError` from reading past the end of the index when `idx = count` —
and the error is raised before any write, so neither file gains a
record. -/
theorem claim_C3_no_forward_reference {E : Libs} {rf : Revfile}
    {text : List Nat} {c : Bool} {idx : Nat}
    (hfresh : rf.find_sha (E.sha1 text) = _NO_RECORD)
    (hge : rf.length ≤ idx) (hsent : idx ≠ _NO_RECORD) :
    rf.add E text idx c =
      .error (if rf.length < idx then .RevfileError "invalid index"
              else .IndexError "end of index file") := by
  rw [Revfile.add, if_neg (by simp [hfresh]), if_neg hsent, Revfile.add_delta]
  by_cases hlt : rf.length < idx
  · have hchk : rf.check_index idx = .error (.RevfileError "invalid index") := by
      rw [Revfile.check_index, if_pos hlt]
    rw [hchk, if_pos hlt]
  · have hchk : rf.check_index idx = .ok () := by
      rw [Revfile.check_index, if_neg hlt]
    have hnone : rf.recs.get? idx = none := by
      rw [List.get?_eq_none]
      simp only [Revfile.length] at hge
      omega
    have hget : rf.get E idx (some CHAIN_LIMIT) =
        .error (.IndexError "end of index file") := by
      rw [Revfile.get]
      simp only [Revfile.getFuel, Revfile.getitem, hnone]
    rw [hchk, hget, if_neg hlt]
    simp

/-- Witness for C3 (amended): on the empty store, `add` of a fresh text
with base 0 (equal to the revision count, not the sentinel) fails with
`IndexError`. -/
theorem claim_C3_witness :
    Revfile.add L0 ⟨[], []⟩ [7] 0 true =
      .error (.IndexError "end of index file") := by
  have h := @claim_C3_no_forward_reference L0 ⟨[], []⟩ [7] true 0
    (by decide) (by decide) (by decide)
  simpa using h

/-- Claim C4: when `add` is given a base whose reconstruction hits the
chain-length limit (`get base` with `recursion_limit = CHAIN_LIMIT` raises
`LimitHitException`), the record actually stored is a full text — its base
field is the no-base sentinel — and, in general, no call of `add`
whatsoever can return `LimitHitException` to its caller. -/
theorem claim_C4_chain_limit_fallback {E : Libs} {rf : Revfile}
    {text : List Nat} {b : Nat} {c : Bool} {i : Nat} {rf' : Revfile}
    (hfresh : rf.find_sha (E.sha1 text) = _NO_RECORD)
    (hlim : rf.get E b (some CHAIN_LIMIT) = .error .LimitHitException)
    (hok : rf.add E text b c = .ok (i, rf')) :
    (∃ r : IdxRec, rf'.recs = rf.recs ++ [r] ∧ r.base = _NO_RECORD) ∧
    ∀ (E2 : Libs) (rf2 : Revfile) (t2 : List Nat) (b2 : Nat) (c2 : Bool),
      rf2.add E2 t2 b2 c2 ≠ .error .LimitHitException := by
  refine ⟨?_, fun E2 rf2 t2 b2 c2 => add_no_limit_escape E2 rf2 t2 b2 c2⟩
  rw [Revfile.add, if_neg (by simp [hfresh])] at hok
  have hfull : ∀ {cc : Bool},
      rf.add_full_text E text (E.sha1 text) cc = .ok (i, rf') →
      ∃ r : IdxRec, rf'.recs = rf.recs ++ [r] ∧ r.base = _NO_RECORD := by
    intro cc hh
    rw [Revfile.add_full_text] at hh
    obtain ⟨-, hrecs, -⟩ := add_compressed_ok hh
    exact ⟨_, hrecs, rfl⟩
  split at hok
  · exact hfull hok
  · rw [Revfile.add_delta] at hok
    split at hok
    · cases hok
    · split at hok
      case h_1 e heq =>
        rw [hlim] at heq
        injection heq with he
        rw [← he, if_pos rfl] at hok
        exact hfull hok
      case h_2 bt heq =>
        rw [hlim] at heq
        cases heq

/-- Witness for C4: on the three-hop chain store, reconstructing base 3
with limit `CHAIN_LIMIT = 2` hits the limit, and adding the fresh text
`[9, 9]` against base 3 stores a full-text record (base field the no-base
sentinel). -/
theorem claim_C4_witness :
    (∃ r : IdxRec,
      (Revfile.mk (rfChain.recs ++ [⟨[9, 9], _NO_RECORD, 0, 0, 2⟩])
        [9, 9]).recs = rfChain.recs ++ [r] ∧ r.base = _NO_RECORD) ∧
    ∀ (E2 : Libs) (rf2 : Revfile) (t2 : List Nat) (b2 : Nat) (c2 : Bool),
      rf2.add E2 t2 b2 c2 ≠ .error .LimitHitException :=
  @claim_C4_chain_limit_fallback L0 rfChain [9, 9] 3 true 4
    ⟨rfChain.recs ++ [⟨[9, 9], _NO_RECORD, 0, 0, 2⟩], [9, 9]⟩
    (by decide) (by decide) (by decide)

/-- Claim C5: for a fresh text added against a valid, reachable base, the
stored record is a delta record (base field `b`) exactly when the encoded
delta is strictly smaller than the text, and when the delta's length is at
least the text's the stored record is a full text (no-base sentinel). -/
theorem claim_C5_delta_iff_smaller {E : Libs} {rf : Revfile}
    {text base_text : List Nat} {b : Nat} {c : Bool} {i : Nat} {rf' : Revfile}
    (hfresh : rf.find_sha (E.sha1 text) = _NO_RECORD)
    (hb : b ≠ _NO_RECORD)
    (hbt : rf.get E b (some CHAIN_LIMIT) = .ok base_text)
    (hok : rf.add E text b c = .ok (i, rf')) :
    ∃ r : IdxRec, rf'.recs = rf.recs ++ [r] ∧
      (r.base = b ↔ (E.bdiff base_text text).length < text.length) ∧
      (text.length ≤ (E.bdiff base_text text).length →
        r.base = _NO_RECORD) := by
  rw [Revfile.add, if_neg (by simp [hfresh]), if_neg hb,
    Revfile.add_delta] at hok
  split at hok
  · cases hok
  · split at hok
    case h_1 e heq => rw [hbt] at heq; cases heq
    case h_2 bt heq =>
      rw [hbt] at heq
      injection heq with he
      subst he
      split at hok
      case isTrue hle =>
        rw [Revfile.add_full_text] at hok
        obtain ⟨-, hrecs, -⟩ := add_compressed_ok hok
        refine ⟨_, hrecs, ?_, fun _ => rfl⟩
        constructor
        · intro hbase
          exact absurd hbase.symm hb
        · intro hsm
          omega
      case isFalse hgt =>
        obtain ⟨-, hrecs, -⟩ := add_compressed_ok hok
        refine ⟨_, hrecs, ?_, fun hle => absurd hle hgt⟩
        simp only [true_iff]
        omega

/-- Witness for C5: against the one-record store, the delta `L0` computes
for text `[9]` has length 2 ≥ 1, so the stored record is a full text. -/
theorem claim_C5_witness :
    ∃ r : IdxRec,
      (Revfile.mk (rfOne.recs ++ [⟨[9], _NO_RECORD, 0, 1, 1⟩])
        [5, 9]).recs = rfOne.recs ++ [r] ∧
      (r.base = 0 ↔ (L0.bdiff [5] [9]).length < ([9] : List Nat).length) ∧
      (([9] : List Nat).length ≤ (L0.bdiff [5] [9]).length →
        r.base = _NO_RECORD) :=
  @claim_C5_delta_iff_smaller L0 rfOne [9] [5] 0 true 1
    ⟨rfOne.recs ++ [⟨[9], _NO_RECORD, 0, 1, 1⟩], [5, 9]⟩
    (by decide) (by decide) (by decide) (by decide)

/-- Claim C6: for every record written through `_add_compressed` (the
single write path used by `add`), the compression flag bit is set and the
compressed payload stored exactly when compression was requested, the
payload exceeds 50 bytes, and the compressed form is strictly smaller;
otherwise the payload is stored uncompressed with flags 0. -/
theorem claim_C6_compression_flag {E : Libs} {rf : Revfile}
    {sh d : List Nat} {b : Nat} {c : Bool} {i : Nat} {rf' : Revfile}
    (hok : rf.add_compressed E sh d b c = .ok (i, rf')) :
    ∃ r : IdxRec, rf'.recs = rf.recs ++ [r] ∧
      rf'.data = rf.data ++
        (if c = true ∧ 50 < d.length ∧ (E.compress d).length < d.length
         then E.compress d else d) ∧
      (r.flags = FL_GZIP ↔
        (c = true ∧ 50 < d.length ∧ (E.compress d).length < d.length)) ∧
      (¬(c = true ∧ 50 < d.length ∧ (E.compress d).length < d.length) →
        r.flags = 0) := by
  obtain ⟨-, hrecs, hdata⟩ := add_compressed_ok hok
  by_cases hc : c = true ∧ 50 < d.length ∧ (E.compress d).length < d.length
  · refine ⟨_, hrecs, ?_, ?_, fun hnc => absurd hc hnc⟩
    · rw [if_pos hc] at hdata ⊢
      exact hdata
    · rw [if_pos hc]
      simp [hc]
  · refine ⟨_, hrecs, ?_, ?_, fun _ => ?_⟩
    · rw [if_neg hc] at hdata ⊢
      exact hdata
    · rw [if_neg hc]
      simp only [FL_GZIP]
      constructor
      · intro h01
        cases h01
      · intro h
        exact absurd h hc
    · rw [if_neg hc]

/-- Witness for C6: with the shrinking compressor `L1`, a requested,
60-byte payload is stored compressed (first three bytes) with the flag bit
set. -/
theorem claim_C6_witness :
    ∃ r : IdxRec,
      (Revfile.mk [⟨[1], 0, FL_GZIP, 0, 3⟩] [7, 7, 7]).recs =
        ([] : List IdxRec) ++ [r] ∧
      (Revfile.mk [⟨[1], 0, FL_GZIP, 0, 3⟩] [7, 7, 7]).data =
        ([] : List Nat) ++
        (if true = true ∧ 50 < (List.replicate 60 7).length ∧
            (L1.compress (List.replicate 60 7)).length <
              (List.replicate 60 7).length
         then L1.compress (List.replicate 60 7) else List.replicate 60 7) ∧
      (r.flags = FL_GZIP ↔
        (true = true ∧ 50 < (List.replicate 60 7).length ∧
          (L1.compress (List.replicate 60 7)).length <
            (List.replicate 60 7).length)) ∧
      (¬(true = true ∧ 50 < (List.replicate 60 7).length ∧
          (L1.compress (List.replicate 60 7)).length <
            (List.replicate 60 7).length) →
        r.flags = 0) :=
  @claim_C6_compression_flag L1 ⟨[], []⟩ [1] (List.replicate 60 7) 0 true 0
    ⟨[⟨[1], 0, FL_GZIP, 0, 3⟩], [7, 7, 7]⟩ (by decide)

/-- Claim C7: every successful `get` returns a text whose hash equals the
record's stored hash, and whenever the reconstruction step of `get` yields
a text whose hash no longer matches the stored one (as after altering the
record's data payload), `get` raises the hash-mismatch `RevfileError`
instead of returning bytes. -/
theorem claim_C7_hash_verified (E : Libs) (rf : Revfile) (idx : Nat) :
    (∀ t, rf.get E idx none = .ok t →
      ∃ r, rf.getitem idx = .ok r ∧ E.sha1 t = r.sha) ∧
    (∀ r t, rf.getitem idx = .ok r →
      rf.reconstruct E idx r none = .ok t →
      E.sha1 t ≠ r.sha →
      rf.get E idx none =
        .error (.RevfileError "corrupt SHA-1 digest on record")) := by
  constructor
  · intro t h
    exact get_ok_sha h
  · intro r t hr hrec hne
    rw [Revfile.reconstruct] at hrec
    rw [Revfile.get]
    simp only [Revfile.getFuel, hr, hrec]
    rw [if_neg hne]

/-- Witness for C7: on the intact one-record store `get 0` succeeds with a
matching digest; on `rfBad` (same payload, stored digest altered to `[99]`)
the reconstruction yields `[5]`, whose digest mismatches, and `get 0`
raises the hash-mismatch error. -/
theorem claim_C7_witness :
    (∃ r, rfOne.getitem 0 = .ok r ∧ L0.sha1 [5] = r.sha) ∧
    rfBad.get L0 0 none =
      .error (.RevfileError "corrupt SHA-1 digest on record") :=
  ⟨(claim_C7_hash_verified L0 rfOne 0).1 [5] (by decide),
   (claim_C7_hash_verified L0 rfBad 0).2 ⟨[99], _NO_RECORD, 0, 0, 1⟩ [5]
     (by decide) (by decide) (by decide)⟩

/-- Claim C10 (code bug, evaluated at the failing input): when the index
file read returns 10 bytes — more than zero, fewer than the 48 of a whole
record, as with an index truncated mid-record — `_read_next_index` fails
with `NameError` on the unbound name `idx` used in its error message,
not with the `RevfileError` the claim (and the raise statement itself)
intends. -/
theorem claim_C10_short_read_raises_namerror :
    _read_next_index (List.replicate 10 0) = .error (.NameError "idx") := by
  decide

/-! ## Helper lemmas about the wire protocol -/

theorem readline_no_nl {l : List Nat} (h : NL ∉ l) : readline l = (l, []) := by
  induction l with
  | nil => rfl
  | cons b rest ih =>
    have hb : ¬(b = NL) := fun hh => h (hh ▸ List.mem_cons_self b rest)
    rw [readline, if_neg hb, ih (fun hm => h (List.mem_cons_of_mem _ hm))]

theorem readline_upto_nl {l rest : List Nat} (h : NL ∉ l) :
    readline (l ++ NL :: rest) = (l ++ [NL], rest) := by
  induction l with
  | nil => simp [readline]
  | cons b t ih =>
    have hb : ¬(b = NL) := fun hh => h (hh ▸ List.mem_cons_self b t)
    rw [List.cons_append, readline, if_neg hb,
      ih (fun hm => h (List.mem_cons_of_mem _ hm))]
    rfl

theorem splitSep_no_sep {f : List Nat} (h : SEP ∉ f) : splitSep f = [f] := by
  induction f with
  | nil => rfl
  | cons b t ih =>
    have hb : ¬(b = SEP) := fun hh => h (hh ▸ List.mem_cons_self b t)
    rw [splitSep, if_neg hb, ih (fun hm => h (List.mem_cons_of_mem _ hm))]
    rfl

theorem splitSep_field_cons {f rest : List Nat} (h : SEP ∉ f) :
    splitSep (f ++ SEP :: rest) = f :: splitSep rest := by
  induction f with
  | nil =>
    rw [List.nil_append, splitSep, if_pos rfl]
  | cons b t ih =>
    have hb : ¬(b = SEP) := fun hh => h (hh ▸ List.mem_cons_self b t)
    rw [List.cons_append, splitSep, if_neg hb,
      ih (fun hm => h (List.mem_cons_of_mem _ hm))]
    rfl

theorem splitSep_joinSep {args : List (List Nat)} (hne : args ≠ [])
    (h : ∀ f ∈ args, SEP ∉ f) : splitSep (joinSep args) = args := by
  induction args with
  | nil => exact absurd rfl hne
  | cons f rest ih =>
    cases rest with
    | nil =>
      rw [joinSep]
      exact splitSep_no_sep (h f (List.mem_cons_self f []))
    | cons g rs =>
      rw [show joinSep (f :: g :: rs) = f ++ SEP :: joinSep (g :: rs) from rfl]
      rw [splitSep_field_cons (h f (List.mem_cons_self f _))]
      rw [ih (by simp) (fun x hx => h x (List.mem_cons_of_mem _ hx))]

theorem nl_not_mem_joinSep {args : List (List Nat)}
    (h : ∀ f ∈ args, NL ∉ f) : NL ∉ joinSep args := by
  induction args with
  | nil => simp [joinSep]
  | cons f rest ih =>
    cases rest with
    | nil =>
      rw [joinSep]
      exact h f (List.mem_cons_self f [])
    | cons g rs =>
      rw [show joinSep (f :: g :: rs) = f ++ SEP :: joinSep (g :: rs) from rfl]
      intro hmem
      rcases List.mem_append.mp hmem with hf | hrest
      · exact h f (List.mem_cons_self f _) hf
      · rcases List.mem_cons.mp hrest with heq | hjoin
        · exact absurd heq (by decide)
        · exact ih (fun x hx => h x (List.mem_cons_of_mem _ hx)) hjoin

theorem recv_of_send {args : List (List Nat)} {extra : List Nat}
    (hne : args ≠ []) (h : ∀ f ∈ args, SEP ∉ f ∧ NL ∉ f) :
    _recv_tuple (_send_tuple args ++ extra) = (.tup args, extra) := by
  have hnl : NL ∉ joinSep args := nl_not_mem_joinSep (fun f hf => (h f hf).2)
  rw [_recv_tuple, _send_tuple, List.append_assoc, List.singleton_append,
    readline_upto_nl hnl]
  rw [if_neg (by simp), if_neg (by simp), List.dropLast_concat,
    splitSep_joinSep hne (fun f hf => (h f hf).1)]

/-- Claim C8: the tuple codec round-trips — decoding a stream holding
exactly the encoding of a non-empty field sequence (no field containing the
separator `0x01` or a newline) yields that sequence with nothing left over;
decoding an empty (end-of-file) stream yields the end-of-stream marker; and
decoding a stream whose final line lacks the terminating newline raises the
protocol error. -/
theorem claim_C8_tuple_codec :
    (∀ args : List (List Nat), args ≠ [] →
      (∀ f ∈ args, SEP ∉ f ∧ NL ∉ f) →
      _recv_tuple (_send_tuple args) = (.tup args, [])) ∧
    _recv_tuple [] = (.eof, []) ∧
    (∀ s : List Nat, s ≠ [] → NL ∉ s →
      _recv_tuple s = (.err "request not terminated", [])) := by
  refine ⟨?_, by rfl, ?_⟩
  · intro args hne h
    simpa using @recv_of_send args [] hne h
  · intro s hne hnl
    have hlast : s.getLast? ≠ some NL := by
      intro hl
      obtain ⟨h0, heq⟩ := List.mem_getLast?_eq_getLast
        (show NL ∈ s.getLast? from by rw [hl]; rfl)
      exact hnl (heq ▸ List.getLast_mem h0)
    rw [_recv_tuple, readline_no_nl hnl, if_neg hne, if_pos hlast]

/-- Witness for C8: a concrete two-field tuple round-trips; the empty
stream decodes to end-of-stream; a one-byte stream with no newline is a
protocol error. -/
theorem claim_C8_witness :
    _recv_tuple (_send_tuple [[104, 105], [97]]) =
      (.tup [[104, 105], [97]], []) ∧
    _recv_tuple [] = (.eof, []) ∧
    _recv_tuple [120] = (.err "request not terminated", []) :=
  ⟨claim_C8_tuple_codec.1 [[104, 105], [97]] (by decide) (by decide),
   claim_C8_tuple_codec.2.1,
   claim_C8_tuple_codec.2.2 [120] (by decide) (by decide)⟩

/-- Claim C9: the server's response to a `get` request for `path` is: when
the backing store holds the file, the tuple `ok` followed by the bulk chunk
`<decimal length>\n`, the raw bytes, and `done\n`; when the path is absent,
the single tuple `(enoent, path)` with no bulk data; in both cases
`_serve_one_request` returns `None` (the connection stays open for further
requests, witnessed by `keepOpen = true` and by the unread remainder of the
stream being handed back untouched). -/
theorem claim_C9_get_response (backing : List Nat → Option (List Nat))
    (path extra : List Nat) (hs : SEP ∉ path) (hn : NL ∉ path) :
    (∀ body, backing path = some body →
      serve_one_request backing (_send_tuple [bGet, path] ++ extra) =
        (.reply (_send_tuple [bOk] ++
          (decimalBytes body.length ++ [NL] ++ body ++ bDone ++ [NL])) true,
         extra)) ∧
    (backing path = none →
      serve_one_request backing (_send_tuple [bGet, path] ++ extra) =
        (.reply (_send_tuple [bEnoent, path]) true, extra)) := by
  have hrecv : _recv_tuple (_send_tuple [bGet, path] ++ extra) =
      (.tup [bGet, path], extra) := by
    refine recv_of_send (by simp) ?_
    intro f hf
    rcases List.mem_cons.mp hf with rfl | hf2
    · exact ⟨by decide, by decide⟩
    · rcases List.mem_cons.mp hf2 with rfl | hf3
      · exact ⟨hs, hn⟩
      · cases hf3
  have hne1 : ¬(bGet = bHello) := by decide
  have hne2 : ¬(bGet = bHas) := by decide
  constructor
  · intro body hb
    rw [serve_one_request, hrecv]
    simp only [serve_reply, dispatch_reply, if_neg hne1, if_neg hne2,
      if_pos rfl, hb]
    rfl
  · intro hb
    rw [serve_one_request, hrecv]
    simp only [serve_reply, dispatch_reply, if_neg hne1, if_neg hne2,
      if_pos rfl, hb, if_true]

/-- Witness for C9: the spec's own example — `get` of the existing 11-byte
file "hello world" yields `ok\n` followed by `11\nhello world\ndone\n`. -/
theorem claim_C9_witness :
    serve_one_request backingW (_send_tuple [bGet, bFoo] ++ []) =
      (.reply (_send_tuple [bOk] ++
        (decimalBytes bHelloWorld.length ++ [NL] ++ bHelloWorld ++ bDone ++
          [NL])) true, []) :=
  (claim_C9_get_response backingW bFoo [] (by decide) (by decide)).1
    bHelloWorld (by decide)

theorem get_raw_slice (fl : Nat) {E : Libs} {recs2 : List IdxRec}
    {d1 pay sh : List Nat} {b : Nat} (hfl : fl / 2 = 0) :
    Revfile.get_raw E ⟨recs2, d1 ++ pay⟩ ⟨sh, b, fl, d1.length, pay.length⟩ =
      if pay.length = 0 then .ok []
      else if fl % 2 = 1 then .ok (E.decompress pay) else .ok pay := by
  simp only [Revfile.get_raw]
  rw [if_neg (by simp [hfl])]
  by_cases h0 : pay.length = 0
  · simp [h0]
  · simp [h0]

theorem get_of_full_record (r : IdxRec) {E : Libs} {store : Revfile}
    {idx : Nat} {t : List Nat} (hb : r.base = _NO_RECORD)
    (hgi : store.getitem idx = .ok r) (hraw : store.get_raw E r = .ok t)
    (hsha : E.sha1 t = r.sha) : store.get E idx none = .ok t := by
  rw [Revfile.get]
  simp only [Revfile.getFuel, hgi, Revfile.recon_with, hb, if_pos rfl, hraw,
    if_true, eq_self_iff_true]
  rw [if_pos hsha]

/-- Claim C1: on a well-formed store, for every byte string (empty
included), `store.get(store.add(T))` returns exactly `T`.  The library
hypotheses state the relevant stdlib facts: SHA-1 digests are collision
free over the texts in play, zlib decompression inverts compression, and
zlib output is never empty. -/
theorem claim_C1_roundtrip {E : Libs} {rf : Revfile} {text : List Nat}
    {c : Bool} {i : Nat} {rf' : Revfile}
    (hinj : Function.Injective E.sha1)
    (hzrt : ∀ d, E.decompress (E.compress d) = d)
    (hzne : ∀ d, E.compress d ≠ [])
    (hwf : WellFormed E rf)
    (hok : rf.add E text _NO_RECORD c = .ok (i, rf')) :
    rf'.get E i none = .ok text := by
  by_cases hf : rf.find_sha (E.sha1 text) ≠ _NO_RECORD
  · -- the text was already present: add returned the existing index
    rw [Revfile.add, if_pos hf] at hok
    simp only [Except.ok.injEq, Prod.mk.injEq] at hok
    obtain ⟨hi, hrf⟩ := hok
    subst hrf
    rw [Revfile.find_sha] at hf
    obtain ⟨k, r, hk, hsha, hfind⟩ := find_sha_from_found hf
    have hik : i = k := by
      rw [← hi, Revfile.find_sha, hfind]
      omega
    have hklt : k < rf.recs.length := by
      by_contra hge
      rw [List.get?_eq_none.mpr (Nat.le_of_not_lt hge)] at hk
      cases hk
    obtain ⟨t, hget⟩ := hwf k hklt
    obtain ⟨r2, hr2, hsha2⟩ := get_ok_sha hget
    have hr2r : r = r2 := by
      simp only [Revfile.getitem, hk, Except.ok.injEq] at hr2
      exact hr2
    have ht : t = text := by
      refine hinj ?_
      rw [hsha2, ← hr2r, hsha]
    rw [hik, hget, ht]
  · -- fresh text: a full-text record was appended
    push_neg at hf
    rw [Revfile.add, if_neg (by simp [hf]), if_pos rfl,
      Revfile.add_full_text] at hok
    obtain ⟨hi, hrecs, hdata⟩ := add_compressed_ok hok
    obtain ⟨recs', data'⟩ := rf'
    simp only at hrecs hdata
    subst hrecs hdata hi
    by_cases hP : c = true ∧ 50 < text.length ∧
        (E.compress text).length < text.length
    · -- stored compressed, flag bit set
      simp only [if_pos hP]
      have hne : (E.compress text).length ≠ 0 := fun h0 =>
        hzne text (List.length_eq_zero.mp h0)
      refine get_of_full_record
        ⟨E.sha1 text, _NO_RECORD, FL_GZIP, rf.data.length,
          (E.compress text).length⟩ rfl ?_ ?_ rfl
      · simp [Revfile.getitem]
      · rw [get_raw_slice FL_GZIP (by decide), if_neg hne,
          if_pos (by decide), hzrt]
    · -- stored uncompressed, flag bit clear
      simp only [if_neg hP]
      by_cases h0 : text.length = 0
      · have htext : text = [] := List.length_eq_zero.mp h0
        subst htext
        refine get_of_full_record
          ⟨E.sha1 [], _NO_RECORD, 0, rf.data.length, ([] : List Nat).length⟩
          rfl ?_ ?_ rfl
        · simp [Revfile.getitem]
        · rw [get_raw_slice 0 (by decide)]
          simp
      · refine get_of_full_record
          ⟨E.sha1 text, _NO_RECORD, 0, rf.data.length, text.length⟩
          rfl ?_ ?_ rfl
        · simp [Revfile.getitem]
        · rw [get_raw_slice 0 (by decide), if_neg h0, if_neg (by decide)]


/-- Witness for C1: adding `[7]` to the empty store (vacuously well formed,
with the concrete injective digest and invertible compressor of `L0`)
yields index 0, and `get 0` returns `[7]`. -/
theorem claim_C1_witness :
    Revfile.get L0 ⟨[⟨[7], _NO_RECORD, 0, 0, 1⟩], [7]⟩ 0 none = .ok [7] :=
  @claim_C1_roundtrip L0 ⟨[], []⟩ [7] true 0
    ⟨[⟨[7], _NO_RECORD, 0, 0, 1⟩], [7]⟩
    (fun _ _ h => h) (fun _ => rfl) (fun _ h => List.noConfusion h)
    (fun i hi => absurd hi (Nat.not_lt_zero i)) (by decide)
